import Mathlib

/-!
Verification of the Bot_Ring repository (files `bot.py` and `Main.py`): a
Telegram bot that converts videos to square "video note" clips, gated by a
two-tier (super/admin) access-control list persisted as JSON.

The development shallowly embeds the relevant Python code:

* a `PyVal` type models Python/JSON values; dictionary primitives (`dget`,
  `dset`, `dsetdefault`) model Python `dict` operations on first occurrence
  of a key, and fallible code returns `Except PyErr`;
* `normBlock` / `normalizeExc` embed `_normalize_access` from `bot.py`,
  `loadAccessParsed` / `saveAccess` embed `_load_access` / `_save_access`;
* a structured `AccessDoc` type mirrors the shape of every document the
  program itself writes; the super-admin command handlers
  (`cmdGrantAdmin`, `cmdRevokeAdmin`, `cmdGrantSuper`, `cmdRevokeSuper`)
  and the role predicates are embedded over it;
* the ffmpeg argument vectors of `ffmpeg_convert` (bot.py) and
  `convert_to_video_note` (Main.py) are embedded literally, together with a
  small model of the documented behaviour of the filters they use;
* the `handle_video` handlers are embedded over an explicit file-system
  state to reason about temporary-directory cleanup.
-/

namespace BotRing

/-! ## Generic sorted-deduplicated lists

Python's `sorted(set(xs))` is modelled by `sortDedup lt xs`: insertion into a
strictly sorted list, skipping duplicates. -/

/-- Is the first element (if any) strictly above `a`? -/
def headOk (lt : α → α → Bool) (a : α) : List α → Bool
  | [] => true
  | b :: _ => lt a b

/-- The list is strictly increasing with respect to `lt`. -/
def chainB (lt : α → α → Bool) : List α → Bool
  | [] => true
  | a :: t => headOk lt a t && chainB lt t

/-- Insert into a strictly sorted list, dropping the element if present. -/
def insertSorted [DecidableEq α] (lt : α → α → Bool) (x : α) : List α → List α
  | [] => [x]
  | y :: ys => if lt x y then x :: y :: ys else if x = y then y :: ys else y :: insertSorted lt x ys

/-- Model of Python `sorted(set(xs))` (for a strict total order `lt`). -/
def sortDedup [DecidableEq α] (lt : α → α → Bool) : List α → List α
  | [] => []
  | x :: xs => insertSorted lt x (sortDedup lt xs)

theorem mem_insertSorted [DecidableEq α] (lt : α → α → Bool) (x a : α) (l : List α)
    (h : a ∈ insertSorted lt x l) : a = x ∨ a ∈ l := by
  induction l with
  | nil =>
    simp [insertSorted] at h
    exact Or.inl h
  | cons y ys ih =>
    simp only [insertSorted] at h
    split at h
    · simpa using h
    · split at h
      · right; exact h
      · rcases List.mem_cons.mp h with h1 | h1
        · right; simp [h1]
        · rcases ih h1 with h2 | h2
          · left; exact h2
          · right; simp [h2]

theorem mem_sortDedup [DecidableEq α] (lt : α → α → Bool) (a : α) (l : List α)
    (h : a ∈ sortDedup lt l) : a ∈ l := by
  induction l with
  | nil => simp [sortDedup] at h
  | cons x xs ih =>
    simp only [sortDedup] at h
    rcases mem_insertSorted lt x a _ h with h1 | h1
    · simp [h1]
    · simp [ih h1]

theorem headOk_insertSorted [DecidableEq α] (lt : α → α → Bool) (x y : α) (l : List α)
    (hyx : lt y x = true) (hh : headOk lt y l = true) :
    headOk lt y (insertSorted lt x l) = true := by
  cases l with
  | nil => simpa [insertSorted, headOk] using hyx
  | cons z zs =>
    simp only [insertSorted]
    split
    · simpa [headOk] using hyx
    · split
      · simpa [headOk] using hh
      · simpa [headOk] using hh

theorem chainB_insertSorted [DecidableEq α] (lt : α → α → Bool)
    (htot : ∀ a b : α, a ≠ b → lt a b = true ∨ lt b a = true)
    (x : α) (l : List α) (h : chainB lt l = true) :
    chainB lt (insertSorted lt x l) = true := by
  induction l with
  | nil => simp [insertSorted, chainB, headOk]
  | cons y ys ih =>
    simp only [chainB, Bool.and_eq_true] at h
    simp only [insertSorted]
    split
    · next hlt =>
      simp only [chainB, Bool.and_eq_true]
      exact ⟨by simpa [headOk] using hlt, h.1, h.2⟩
    · split
      · next heq => simp [chainB, h.1, h.2]
      · next hlt heq =>
        have hyx : lt y x = true := by
          rcases htot x y heq with h1 | h1
          · exact absurd h1 (by simp [hlt])
          · exact h1
        have hho : headOk lt y (insertSorted lt x ys) = true :=
          headOk_insertSorted lt x y ys hyx h.1
        simp [chainB, hho, ih h.2]

theorem chainB_sortDedup [DecidableEq α] (lt : α → α → Bool)
    (htot : ∀ a b : α, a ≠ b → lt a b = true ∨ lt b a = true)
    (l : List α) : chainB lt (sortDedup lt l) = true := by
  induction l with
  | nil => simp [sortDedup, chainB]
  | cons x xs ih => exact chainB_insertSorted lt htot x _ ih

theorem sortDedup_of_chainB [DecidableEq α] (lt : α → α → Bool) (l : List α)
    (h : chainB lt l = true) : sortDedup lt l = l := by
  induction l with
  | nil => rfl
  | cons x xs ih =>
    simp only [chainB, Bool.and_eq_true] at h
    simp only [sortDedup, ih h.2]
    cases xs with
    | nil => rfl
    | cons y ys =>
      have : lt x y = true := by simpa [headOk] using h.1
      simp [insertSorted, this]

theorem sortDedup_idem [DecidableEq α] (lt : α → α → Bool)
    (htot : ∀ a b : α, a ≠ b → lt a b = true ∨ lt b a = true)
    (l : List α) : sortDedup lt (sortDedup lt l) = sortDedup lt l :=
  sortDedup_of_chainB lt _ (chainB_sortDedup lt htot l)

/-- Strict order on `Int` as a boolean, for `sorted(set(...))` over ids. -/
def intLt (a b : Int) : Bool := a < b

theorem intLt_total (a b : Int) (h : a ≠ b) : intLt a b = true ∨ intLt b a = true := by
  rcases lt_trichotomy a b with h1 | h1 | h1
  · left; simpa [intLt] using h1
  · exact absurd h1 h
  · right; simpa [intLt] using h1

/-- Code-point lexicographic order on character lists (Python string `<`). -/
def charsLt : List Char → List Char → Bool
  | [], [] => false
  | [], _ :: _ => true
  | _ :: _, [] => false
  | a :: as, b :: bs =>
    if a.toNat < b.toNat then true else if b.toNat < a.toNat then false else charsLt as bs

/-- Python string comparison: lexicographic by code point. -/
def strLt (a b : String) : Bool := charsLt a.data b.data

theorem charsLt_total (a b : List Char) (h : a ≠ b) :
    charsLt a b = true ∨ charsLt b a = true := by
  induction a generalizing b with
  | nil =>
    cases b with
    | nil => exact absurd rfl h
    | cons y ys => left; rfl
  | cons x xs ih =>
    cases b with
    | nil => right; rfl
    | cons y ys =>
      by_cases hv : x.toNat < y.toNat
      · left; simp [charsLt, hv]
      · by_cases hv2 : y.toNat < x.toNat
        · right; simp [charsLt, hv2]
        · have hxy : x = y :=
            Char.ext (UInt32.ext (Nat.le_antisymm (Nat.not_lt.mp hv2) (Nat.not_lt.mp hv)))
          subst hxy
          have hne : xs ≠ ys := by
            intro hEq; exact h (by simp [hEq])
          rcases ih ys hne with h1 | h1
          · left; simp [charsLt, h1]
          · right; simp [charsLt, h1]

theorem strLt_total (a b : String) (h : a ≠ b) : strLt a b = true ∨ strLt b a = true := by
  apply charsLt_total
  intro hd
  apply h
  cases a; cases b; simp_all

/-! ## Python string primitives

ASCII model of the `str` methods used by the source: `.lower()`, `.lstrip("@")`,
`.strip()` (whitespace), and `int(...)` string parsing. -/

/-- ASCII model of Python `str.lower` on one character: map A-Z to a-z. -/
def charLower (c : Char) : Char :=
  if 65 ≤ c.toNat ∧ c.toNat ≤ 90 then Char.ofNat (c.toNat + 32) else c

theorem toNat_charLower (c : Char) :
    (charLower c).toNat = if 65 ≤ c.toNat ∧ c.toNat ≤ 90 then c.toNat + 32 else c.toNat := by
  unfold charLower
  split
  · next h =>
    have hv : (c.toNat + 32).isValidChar := Or.inl (by omega)
    rw [Char.ofNat, dif_pos hv]
    rfl
  · rfl

theorem charLower_idem (c : Char) : charLower (charLower c) = charLower c := by
  apply Char.ext
  apply UInt32.ext
  show (charLower (charLower c)).toNat = (charLower c).toNat
  rw [toNat_charLower (charLower c), toNat_charLower c]
  by_cases hA : 65 ≤ c.toNat ∧ c.toNat ≤ 90
  · rw [if_pos hA]
    have hno : ¬(65 ≤ c.toNat + 32 ∧ c.toNat + 32 ≤ 90) := by omega
    rw [if_neg hno]
  · rw [if_neg hA, if_neg hA]

theorem charLower_eq_at (c : Char) (h : charLower c = '@') : c = '@' := by
  have ht : (charLower c).toNat = 64 := by rw [h]; rfl
  rw [toNat_charLower c] at ht
  apply Char.ext
  apply UInt32.ext
  show c.toNat = 64
  split at ht <;> omega

/-- Python `str.lower()` (ASCII model). -/
def strLower (s : String) : String := ⟨s.data.map charLower⟩

/-- Python `s.lstrip("@")`: drop every leading `@`. -/
def lstripAt (s : String) : String := ⟨s.data.dropWhile (fun c => c == '@')⟩

/-- Python `str.strip()` whitespace set, as used by `int(...)` and `.strip()`. -/
def isPySpace (c : Char) : Bool :=
  c == ' ' || c == '\t' || c == '\n' || c == '\x0d' || c == '\x0b' || c == '\x0c'

/-- Python `str.strip()`: drop whitespace from both ends. -/
def pyStrip (s : String) : String :=
  ⟨((s.data.dropWhile isPySpace).reverse.dropWhile isPySpace).reverse⟩

/-- Digit run to a number, `none` if empty or non-digit characters occur. -/
def digitsToNat (cs : List Char) : Option Nat :=
  if cs ≠ [] ∧ cs.all (fun c => c.isDigit) then
    some (cs.foldl (fun a c => a * 10 + (c.toNat - 48)) 0)
  else none

/-- Model of Python `int(s)` on strings: strip whitespace, optional sign,
decimal digits.  (Underscore separators and non-ASCII digits are not
modelled.) -/
def parseIntStr (s : String) : Option Int :=
  match (pyStrip s).data with
  | '-' :: rest => (digitsToNat rest).map (fun n => -(n : Int))
  | '+' :: rest => (digitsToNat rest).map (fun n => (n : Int))
  | cs => (digitsToNat cs).map (fun n => (n : Int))

theorem strLower_idem (s : String) : strLower (strLower s) = strLower s := by
  unfold strLower
  congr 1
  show List.map charLower (List.map charLower s.data) = List.map charLower s.data
  rw [List.map_map]
  exact List.map_congr_left (fun c _ => charLower_idem c)

theorem dropWhile_head_false (p : α → Bool) (l : List α) (c : α) (t : List α)
    (h : l.dropWhile p = c :: t) : p c = false := by
  induction l with
  | nil => simp [List.dropWhile] at h
  | cons a as ih =>
    rw [List.dropWhile_cons] at h
    split at h
    · exact ih h
    · next hp =>
      cases h
      simpa using hp

/-- Stripping `@`, lowering, then stripping `@` again changes nothing:
lowering never produces an `@`. -/
theorem lstripAt_strLower_lstripAt (s : String) :
    lstripAt (strLower (lstripAt s)) = strLower (lstripAt s) := by
  unfold lstripAt strLower
  cases hl : s.data.dropWhile (fun c => c == '@') with
  | nil => simp
  | cons c t =>
    have hc : (c == '@') = false := dropWhile_head_false (fun x => x == '@') s.data c t hl
    have hcl : (charLower c == '@') = false := by
      rcases Bool.eq_false_or_eq_true (charLower c == '@') with h1 | h1
      · have heq : charLower c = '@' := by simpa using h1
        have : c = '@' := charLower_eq_at c heq
        simp [this] at hc
      · exact h1
    simp [hl, List.dropWhile_cons, hcl]

/-! ## Python/JSON values

`PyVal` models the values `json.loads` can produce (plus Python bool/None);
dictionaries are association lists in insertion order, and all operations act
on the first occurrence of a key, as a Python `dict` would (a real `dict`
never holds a duplicate key). -/

/-- A Python value as handled by the access store (JSON-representable). -/
inductive PyVal where
  | jnull
  | jbool (b : Bool)
  | jnum (n : Int)
  | jstr (s : String)
  | jarr (l : List PyVal)
  | jobj (l : List (String × PyVal))

/-- Python exception kinds raised by the embedded code. -/
inductive PyErr where
  | attrErr (s : String)
  | typeErr (s : String)
  | valueErr (s : String)
  | keyErr (s : String)
deriving DecidableEq

/-- Python `d[k]` lookup (first occurrence). -/
def dget (l : List (String × PyVal)) (k : String) : Option PyVal :=
  match l with
  | [] => none
  | (k1, v) :: t => if k1 = k then some v else dget t k

/-- Python `d[k] = v`: replace in place, else append. -/
def dset (l : List (String × PyVal)) (k : String) (v : PyVal) : List (String × PyVal) :=
  match l with
  | [] => [(k, v)]
  | (k1, v1) :: t => if k1 = k then (k, v) :: t else (k1, v1) :: dset t k v

/-- Python `d.setdefault(k, v)`: keep an existing binding, else append. -/
def dsetdefault (l : List (String × PyVal)) (k : String) (v : PyVal) : List (String × PyVal) :=
  match dget l k with
  | some _ => l
  | none => l ++ [(k, v)]

/-- Python truthiness of a value (`if u:`). -/
def pyTruthy : PyVal → Bool
  | .jnull => false
  | .jbool b => b
  | .jnum n => n ≠ 0
  | .jstr s => s ≠ ""
  | .jarr l => !l.isEmpty
  | .jobj l => !l.isEmpty

/-- Python iteration `for v in x`: lists yield elements, strings yield
characters, dicts yield their keys; other values raise `TypeError`. -/
def pyIter : PyVal → Except PyErr (List PyVal)
  | .jarr l => .ok l
  | .jstr s => .ok (s.data.map (fun c => .jstr ⟨[c]⟩))
  | .jobj l => .ok (l.map (fun kv => .jstr kv.1))
  | _ => .error (.typeErr "not iterable")

/-- Python `int(v)`: ints as-is, bools to 0/1, strings parsed, everything
else raises. -/
def pyToInt : PyVal → Except PyErr Int
  | .jnum n => .ok n
  | .jbool b => .ok (if b then 1 else 0)
  | .jstr s =>
    match parseIntStr s with
    | some n => .ok n
    | none => .error (.valueErr s)
  | _ => .error (.typeErr "int")

mutual

/-- Python `repr(v)` (escaping inside strings is not modelled). -/
def pyRepr : PyVal → String
  | .jnull => "None"
  | .jbool b => if b then "True" else "False"
  | .jnum n => toString n
  | .jstr s => "\x27" ++ s ++ "\x27"
  | .jarr l => "[" ++ pyReprSeq l ++ "]"
  | .jobj l => "\x7b" ++ pyReprObj l ++ "\x7d"

/-- Comma-separated reprs of list elements. -/
def pyReprSeq : List PyVal → String
  | [] => ""
  | [x] => pyRepr x
  | x :: xs => pyRepr x ++ ", " ++ pyReprSeq xs

/-- Comma-separated `key: value` reprs of dict entries. -/
def pyReprObj : List (String × PyVal) → String
  | [] => ""
  | [(k, v)] => "\x27" ++ k ++ "\x27: " ++ pyRepr v
  | (k, v) :: xs => "\x27" ++ k ++ "\x27: " ++ pyRepr v ++ ", " ++ pyReprObj xs

end

/-- Python `str(v)`: identity on strings, repr otherwise. -/
def pyStr : PyVal → String
  | .jstr s => s
  | v => pyRepr v

/-- The username normalisation applied by `norm_block`:
`str(u).lstrip("@").lower()`. -/
def pyNormU (u : PyVal) : String := strLower (lstripAt (pyStr u))

theorem pyNormU_fix (u : PyVal) : strLower (lstripAt (pyNormU u)) = pyNormU u := by
  unfold pyNormU
  rw [lstripAt_strLower_lstripAt, strLower_idem]

/-! ## The access store (`bot.py`)

`_empty_access`, `_normalize_access`, `_load_access`, `_save_access`. -/

/-- `_empty_access()` from bot.py. -/
def emptyAccess : PyVal :=
  .jobj [("super", .jobj [("ids", .jarr []), ("usernames", .jarr [])]),
         ("admins", .jobj [("ids", .jarr []), ("usernames", .jarr [])])]

/-- The `ids` loop of `norm_block`: `int(v)` per element, `try/except` drops
anything that raises. -/
def collectInts (items : List PyVal) : List Int :=
  items.filterMap (fun v => (pyToInt v).toOption)

/-- `norm_block` from `_normalize_access` in bot.py: `b.get("ids", [])`
coerced to a sorted set of ints, `b.get("usernames", [])` filtered for
truthiness, normalised and sorted.  A non-dict block raises
`AttributeError` (`b.get`). -/
def normBlock (b : PyVal) : Except PyErr PyVal :=
  match b with
  | .jobj bl => do
    let idsRaw := (dget bl "ids").getD (.jarr [])
    let items ← pyIter idsRaw
    let ids := sortDedup intLt (collectInts items)
    let unRaw := (dget bl "usernames").getD (.jarr [])
    let uitems ← pyIter unRaw
    let unames := sortDedup strLt ((uitems.filter pyTruthy).map pyNormU)
    .ok (.jobj [("ids", .jarr (ids.map .jnum)), ("usernames", .jarr (unames.map .jstr))])
  | _ => .error (.attrErr "get")

/-- `_normalize_access` from bot.py: non-dicts become a fresh empty
document; dicts get `super`/`admins` defaulted and each block normalised
in place (other keys are preserved). -/
def normalizeExc (d : PyVal) : Except PyErr PyVal :=
  match d with
  | .jobj l =>
    let l2 := dsetdefault (dsetdefault l "super" (.jobj [])) "admins" (.jobj [])
    match dget l2 "super" with
    | none => .error (.keyErr "super")
    | some sv =>
      match normBlock sv with
      | .error e => .error e
      | .ok nbS =>
        let l3 := dset l2 "super" nbS
        match dget l3 "admins" with
        | none => .error (.keyErr "admins")
        | some av =>
          match normBlock av with
          | .error e => .error e
          | .ok nbA => .ok (.jobj (dset l3 "admins" nbA))
  | _ => .ok emptyAccess

/-- `_load_access` on an existing store file, parametrised by the result of
`json.loads` (`none` models a parse failure, caught and replaced by
`_empty_access()`). -/
def loadAccessParsed (p : Option PyVal) : Except PyErr PyVal :=
  normalizeExc (p.getD emptyAccess)

/-- `_save_access`: the stored document becomes `_normalize_access(data)`
(serialisation to JSON text and back is faithful for these values). -/
def saveAccess (d : PyVal) : Except PyErr PyVal :=
  normalizeExc d

/-- `_load_access` on a store whose file holds the JSON of `stored`. -/
def loadStored (stored : PyVal) : Except PyErr PyVal :=
  normalizeExc stored

/-- `save` followed by `load` of the resulting store. -/
def saveThenLoad (d : PyVal) : Except PyErr PyVal :=
  (saveAccess d).bind loadStored

/-! ## Dictionary lemmas -/

theorem dget_dset_same (l : List (String × PyVal)) (k : String) (v : PyVal) :
    dget (dset l k v) k = some v := by
  induction l with
  | nil => simp [dget, dset]
  | cons kv t ih =>
    obtain ⟨k1, v1⟩ := kv
    by_cases hk : k1 = k
    · simp [dget, dset, hk]
    · simp [dget, dset, hk, ih]

theorem dget_dset_ne (l : List (String × PyVal)) (k1 k2 : String) (v : PyVal)
    (h : k1 ≠ k2) : dget (dset l k1 v) k2 = dget l k2 := by
  induction l with
  | nil => simp [dget, dset, h]
  | cons kv t ih =>
    obtain ⟨k3, v3⟩ := kv
    by_cases hk : k3 = k1
    · simp [dget, dset, hk, h]
    · simp [dget, dset, hk, ih]

theorem dset_dget_same (l : List (String × PyVal)) (k : String) (v : PyVal)
    (h : dget l k = some v) : dset l k v = l := by
  induction l with
  | nil => simp [dget] at h
  | cons kv t ih =>
    obtain ⟨k1, v1⟩ := kv
    by_cases hk : k1 = k
    · subst hk
      simp [dget] at h
      simp [dset, h]
    · simp [dget, hk] at h
      simp [dset, hk, ih h]

theorem dget_append (l1 l2 : List (String × PyVal)) (k : String) :
    dget (l1 ++ l2) k =
      match dget l1 k with
      | some v => some v
      | none => dget l2 k := by
  induction l1 with
  | nil => simp [dget]
  | cons kv t ih =>
    obtain ⟨k1, v1⟩ := kv
    by_cases hk : k1 = k
    · simp [dget, hk]
    · simp [dget, hk, ih]

theorem dget_dsetdefault_ne (l : List (String × PyVal)) (k1 k2 : String) (v : PyVal)
    (h : k1 ≠ k2) : dget (dsetdefault l k1 v) k2 = dget l k2 := by
  unfold dsetdefault
  cases hg : dget l k1 with
  | some w => rfl
  | none =>
    rw [dget_append]
    cases hg2 : dget l k2 with
    | some w => rfl
    | none => simp [dget, h]

theorem dget_dsetdefault_same (l : List (String × PyVal)) (k : String) (v : PyVal) :
    dget (dsetdefault l k v) k = some ((dget l k).getD v) := by
  unfold dsetdefault
  cases hg : dget l k with
  | some w => simpa using hg
  | none =>
    rw [dget_append, hg]
    simp [dget]

theorem dsetdefault_of_isSome (l : List (String × PyVal)) (k : String) (v : PyVal)
    (h : (dget l k).isSome) : dsetdefault l k v = l := by
  unfold dsetdefault
  cases hg : dget l k with
  | some w => rfl
  | none => rw [hg] at h; simp at h

/-! ## Normalisation: shape and fixpoint lemmas -/

/-- The shape of every block produced by `norm_block`. -/
def mkBlock (I : List Int) (U : List String) : PyVal :=
  .jobj [("ids", .jarr (I.map .jnum)), ("usernames", .jarr (U.map .jstr))]

/-- No username entry of the block is the empty string. -/
def blockNoEmptyU (v : PyVal) : Bool :=
  match v with
  | .jobj bl =>
    match dget bl "usernames" with
    | some (.jarr us) => us.all pyTruthy
    | _ => true
  | _ => true

/-- No username entry of either tier is the empty string.  (A handle written
as bare sigils, e.g. `"@"`, normalises to `""`; such entries are exactly the
ones on which a second normalisation pass differs from the first.) -/
def noEmptyUnames (d : PyVal) : Bool :=
  match d with
  | .jobj l =>
    (match dget l "super" with
     | some b => blockNoEmptyU b
     | none => true) &&
    (match dget l "admins" with
     | some b => blockNoEmptyU b
     | none => true)
  | _ => true

theorem collectInts_map_jnum (I : List Int) : collectInts (I.map .jnum) = I := by
  induction I with
  | nil => rfl
  | cons i t ih =>
    have hstep : collectInts (PyVal.jnum i :: t.map PyVal.jnum)
        = i :: collectInts (t.map PyVal.jnum) := rfl
    rw [List.map_cons, hstep, ih]

theorem blockNoEmptyU_mkBlock (I : List Int) (U : List String)
    (h : blockNoEmptyU (mkBlock I U) = true) : ∀ s ∈ U, s ≠ "" := by
  intro s hs
  have e2 : dget [("ids", PyVal.jarr (I.map .jnum)),
      ("usernames", PyVal.jarr (U.map .jstr))] "usernames"
      = some (.jarr (U.map .jstr)) := rfl
  simp only [blockNoEmptyU, mkBlock, e2] at h
  rw [List.all_eq_true] at h
  have := h (.jstr s) (List.mem_map_of_mem _ hs)
  simpa [pyTruthy] using this

theorem normBlock_mkBlock (I : List Int) (U : List String)
    (hI : chainB intLt I = true) (hU : chainB strLt U = true)
    (hfix : ∀ s ∈ U, strLower (lstripAt s) = s)
    (hne : ∀ s ∈ U, s ≠ "") :
    normBlock (mkBlock I U) = .ok (mkBlock I U) := by
  have e1 : dget [("ids", PyVal.jarr (I.map .jnum)),
      ("usernames", PyVal.jarr (U.map .jstr))] "ids" = some (.jarr (I.map .jnum)) := rfl
  have e2 : dget [("ids", PyVal.jarr (I.map .jnum)),
      ("usernames", PyVal.jarr (U.map .jstr))] "usernames" = some (.jarr (U.map .jstr)) := rfl
  have hfilter : (U.map PyVal.jstr).filter pyTruthy = U.map PyVal.jstr := by
    rw [List.filter_eq_self]
    intro a ha
    rcases List.mem_map.mp ha with ⟨s, hs, rfl⟩
    simpa [pyTruthy] using hne s hs
  have hids : sortDedup intLt (collectInts (I.map .jnum)) = I := by
    rw [collectInts_map_jnum]
    exact sortDedup_of_chainB intLt I hI
  have hmap : (U.map PyVal.jstr).map pyNormU = U := by
    rw [List.map_map]
    have : ∀ s ∈ U, (pyNormU ∘ PyVal.jstr) s = id s := by
      intro s hs
      show strLower (lstripAt s) = s
      exact hfix s hs
    rw [List.map_congr_left this, List.map_id]
  simp only [normBlock, mkBlock, e1, e2, Option.getD_some, pyIter, bind, Except.bind,
    hfilter, hmap, hids]
  rw [sortDedup_of_chainB strLt U hU]

theorem normBlock_shape (b blk : PyVal) (h : normBlock b = .ok blk) :
    ∃ I U, blk = mkBlock I U ∧ chainB intLt I = true ∧ chainB strLt U = true ∧
      (∀ s ∈ U, strLower (lstripAt s) = s) := by
  cases b with
  | jobj bl =>
    simp only [normBlock, bind, Except.bind] at h
    split at h
    · exact absurd h (by simp)
    · next items hitems =>
      split at h
      · exact absurd h (by simp)
      · next uitems huitems =>
        injection h with h
        refine ⟨sortDedup intLt (collectInts items),
          sortDedup strLt ((uitems.filter pyTruthy).map pyNormU), h.symm, ?_, ?_, ?_⟩
        · exact chainB_sortDedup intLt intLt_total _
        · exact chainB_sortDedup strLt strLt_total _
        · intro s hs
          rcases List.mem_map.mp (mem_sortDedup strLt s _ hs) with ⟨u, _, rfl⟩
          exact pyNormU_fix u
  | jnull => simp [normBlock] at h
  | jbool b => simp [normBlock] at h
  | jnum n => simp [normBlock] at h
  | jstr s => simp [normBlock] at h
  | jarr l => simp [normBlock] at h

theorem normalizeExc_emptyAccess : normalizeExc emptyAccess = .ok emptyAccess := rfl

/-- A successfully normalised document without empty-string handles is a
fixed point of normalisation. -/
theorem normalizeExc_fix (d nd : PyVal) (h : normalizeExc d = .ok nd)
    (hne : noEmptyUnames nd = true) : normalizeExc nd = .ok nd := by
  cases d with
  | jobj l =>
    simp only [normalizeExc] at h
    split at h
    · simp at h
    · next sv hsv =>
      split at h
      · simp at h
      · next nbS hnbS =>
        split at h
        · simp at h
        · next av hav =>
          split at h
          · simp at h
          · next nbA hnbA =>
            injection h with h
            set l2 := dsetdefault (dsetdefault l "super" (.jobj [])) "admins" (.jobj [])
              with hl2
            set l3 := dset l2 "super" nbS with hl3
            set l4 := dset l3 "admins" nbA with hl4
            have f1 : dget l4 "super" = some nbS := by
              rw [hl4, dget_dset_ne _ _ _ _ (by decide), hl3, dget_dset_same]
            have f2 : dget l4 "admins" = some nbA := by
              rw [hl4, dget_dset_same]
            have f3 : dsetdefault l4 "super" (.jobj []) = l4 :=
              dsetdefault_of_isSome _ _ _ (by rw [f1]; rfl)
            have f4 : dsetdefault l4 "admins" (.jobj []) = l4 :=
              dsetdefault_of_isSome _ _ _ (by rw [f2]; rfl)
            have f6 : dset l4 "super" nbS = l4 := dset_dget_same _ _ _ f1
            have f7 : dset l4 "admins" nbA = l4 := dset_dget_same _ _ _ f2
            rcases normBlock_shape sv nbS hnbS with ⟨I, U, hblkS, hIS, hUS, hfixS⟩
            rcases normBlock_shape av nbA hnbA with ⟨J, V, hblkA, hJA, hVA, hfixA⟩
            rw [← h] at hne
            simp only [noEmptyUnames, f1, f2, Bool.and_eq_true] at hne
            have hneS : ∀ s ∈ U, s ≠ "" :=
              blockNoEmptyU_mkBlock I U (by rw [← hblkS]; exact hne.1)
            have hneA : ∀ s ∈ V, s ≠ "" :=
              blockNoEmptyU_mkBlock J V (by rw [← hblkA]; exact hne.2)
            have f5 : normBlock nbS = .ok nbS := by
              rw [hblkS]; exact normBlock_mkBlock I U hIS hUS hfixS hneS
            have f8 : normBlock nbA = .ok nbA := by
              rw [hblkA]; exact normBlock_mkBlock J V hJA hVA hfixA hneA
            rw [← h]
            simp only [normalizeExc, f3, f4, f1, f5, f6, f2, f8, f7]
  | jnull =>
    simp only [normalizeExc] at h
    injection h with h
    subst h
    exact normalizeExc_emptyAccess
  | jbool b =>
    simp only [normalizeExc] at h
    injection h with h
    subst h
    exact normalizeExc_emptyAccess
  | jnum n =>
    simp only [normalizeExc] at h
    injection h with h
    subst h
    exact normalizeExc_emptyAccess
  | jstr s =>
    simp only [normalizeExc] at h
    injection h with h
    subst h
    exact normalizeExc_emptyAccess
  | jarr l =>
    simp only [normalizeExc] at h
    injection h with h
    subst h
    exact normalizeExc_emptyAccess

/-! ## Structured documents

Every document `_load_access` hands to a command handler has the fixed
two-tier shape (`_load_access` always normalises, or bootstraps this shape
directly), so the handlers are embedded over a structured type. -/

/-- One tier: integer ids and normalised usernames. -/
structure Block where
  ids : List Int
  usernames : List String
deriving DecidableEq

/-- A two-tier access document as stored by bot.py. -/
structure AccessDoc where
  super : Block
  admins : Block
deriving DecidableEq

/-- `norm_block` restricted to the stored shape: sorted deduplicated ids;
truthy usernames stripped of leading `@`, lowercased, sorted. -/
def normBlockS (b : Block) : Block :=
  { ids := sortDedup intLt b.ids,
    usernames := sortDedup strLt ((b.usernames.filter (fun u => u ≠ "")).map
      (fun u => strLower (lstripAt u))) }

/-- `_normalize_access` restricted to the stored shape. -/
def normAccessS (d : AccessDoc) : AccessDoc :=
  { super := normBlockS d.super, admins := normBlockS d.admins }

/-- The body of `_parse_target` after `arg = arg.strip()`: a leading `@`
means handle, else try int, else bare handle. -/
def parseTargetStripped (a : String) : Option Int × Option String :=
  if a = "" then (none, none)
  else if a.data.head? = some '@' then (none, some (strLower (lstripAt a)))
  else
    match parseIntStr a with
    | some n => (some n, none)
    | none => (none, some (strLower a))

/-- `_parse_target` from bot.py. -/
def parseTarget (arg : String) : Option Int × Option String :=
  parseTargetStripped (pyStrip arg)

/-- Python truthiness of the parsed `uname` (`if uname:`). -/
def unameTruthy : Option String → Bool
  | some u => u ≠ ""
  | none => false

/-- Python `str` of the parsed `uid` (`f"{uid}"`; `None` renders as
`"None"`). -/
def optIntStr : Option Int → String
  | some n => toString n
  | none => "None"

/-- `who = f"@{uname}" if uname else uid`, rendered into the reply. -/
def whoStr (uid : Option Int) (uname : Option String) : String :=
  match uname with
  | some u => if u = "" then optIntStr uid else "@" ++ u
  | none => optIntStr uid

/-- `cmd_grant_admin` (bot.py, body after the `_require_super` guard).
`arg` is the text after the command, `none` when absent.  The first result
component is the document written to the store (`none` = no write). -/
def cmdGrantAdmin (access : AccessDoc) (arg : Option String) : Option AccessDoc × String :=
  match arg with
  | none => (none, "Использование: /grant_admin @username | /grant_admin <id>")
  | some a =>
    let t := parseTarget a
    if t.1 = none ∧ unameTruthy t.2 = false then
      (none, "Укажи @username или числовой ID.")
    else
      let admins1 :=
        match t.1 with
        | some uid => { access.admins with ids := sortDedup intLt (access.admins.ids ++ [uid]) }
        | none => access.admins
      let admins2 :=
        if unameTruthy t.2 then
          { admins1 with
            usernames := sortDedup strLt (admins1.usernames ++ [t.2.getD ""]) }
        else admins1
      (some (normAccessS { access with admins := admins2 }),
        "✅ Выдан доступ АДМИНА: " ++ whoStr t.1 t.2)

/-- `cmd_revoke_admin` (bot.py, body after the guard). -/
def cmdRevokeAdmin (access : AccessDoc) (arg : Option String) : Option AccessDoc × String :=
  match arg with
  | none => (none, "Использование: /revoke_admin @username | /revoke_admin <id>")
  | some a =>
    let t := parseTarget a
    let admins1 :=
      match t.1 with
      | some uid =>
        { access.admins with
          ids := sortDedup intLt (access.admins.ids.filter (fun i => i ≠ uid)) }
      | none => access.admins
    let admins2 :=
      if unameTruthy t.2 then
        { admins1 with
          usernames := sortDedup strLt (admins1.usernames.filter (fun u => u ≠ t.2.getD "")) }
      else admins1
    (some (normAccessS { access with admins := admins2 }),
      "✅ Отозван доступ АДМИНА: " ++ whoStr t.1 t.2)

/-- `cmd_grant_super` (bot.py, body after the guard; it has no
missing-target check, unlike `cmd_grant_admin`). -/
def cmdGrantSuper (access : AccessDoc) (arg : Option String) : Option AccessDoc × String :=
  match arg with
  | none => (none, "Использование: /grant_super @username | /grant_super <id>")
  | some a =>
    let t := parseTarget a
    let sup1 :=
      match t.1 with
      | some uid => { access.super with ids := sortDedup intLt (access.super.ids ++ [uid]) }
      | none => access.super
    let sup2 :=
      if unameTruthy t.2 then
        { sup1 with usernames := sortDedup strLt (sup1.usernames ++ [t.2.getD ""]) }
      else sup1
    (some (normAccessS { access with super := sup2 }),
      "✅ Выдан доступ СУПЕР-АДМИНА: " ++ whoStr t.1 t.2)

/-- The super tier after `cmd_revoke_super` applied its two removal lines
for the parsed target of `a`. -/
def superAfterRemoval (access : AccessDoc) (a : String) : Block :=
  let t := parseTarget a
  let sup1 :=
    match t.1 with
    | some uid =>
      { access.super with
        ids := sortDedup intLt (access.super.ids.filter (fun i => i ≠ uid)) }
    | none => access.super
  if unameTruthy t.2 then
    { sup1 with
      usernames := sortDedup strLt (sup1.usernames.filter (fun u => u ≠ t.2.getD "")) }
  else sup1

/-- `cmd_revoke_super` (bot.py, body after the guard): removal first, then
the last-super-admin guard on the post-removal count; rejection writes
nothing. -/
def cmdRevokeSuper (access : AccessDoc) (arg : Option String) : Option AccessDoc × String :=
  match arg with
  | none => (none, "Использование: /revoke_super @username | /revoke_super <id>")
  | some a =>
    let t := parseTarget a
    let sup2 := superAfterRemoval access a
    if sup2.ids.length + sup2.usernames.length = 0 then
      (none, "⛔ Нельзя удалить последнего супер-админа.")
    else
      (some (normAccessS { access with super := sup2 }),
        "✅ Отозван доступ СУПЕР-АДМИНА: " ++ whoStr t.1 t.2)

/-- The stored document after a handler ran against store content `store`
(a `none` write leaves the store as it was). -/
def storeAfter (store : AccessDoc) (out : Option AccessDoc × String) : AccessDoc :=
  out.1.getD store

/-- The caller of a message handler: immutable id, optional handle. -/
structure Caller where
  uid : Int
  username : Option String

/-- `_user_username_norm` from bot.py. -/
def userUnameNorm (c : Caller) : Option String :=
  match c.username with
  | none => none
  | some u => if u = "" then none else some (strLower (lstripAt u))

/-- `_in_block` over a structured block. -/
def inBlockS (c : Caller) (b : Block) : Bool :=
  decide (c.uid ∈ b.ids) ||
    (match userUnameNorm c with
     | some un => decide (un ≠ "") && decide (un ∈ b.usernames)
     | none => false)

/-- `is_super` over a structured document. -/
def isSuperS (c : Caller) (d : AccessDoc) : Bool := inBlockS c d.super

/-- `is_admin` over a structured document: super implies admin. -/
def isAdminS (c : Caller) (d : AccessDoc) : Bool := isSuperS c d || inBlockS c d.admins

/-- `_parse_ids` from bot.py composed with the caller's `sorted(...)`:
comma-separated tokens, stripped, empty skipped, non-ints skipped. -/
def parseIds (env : Option String) : List Int :=
  match env with
  | none => []
  | some s =>
    if s = "" then []
    else
      sortDedup intLt ((s.data.splitOn ',').filterMap
        (fun part => if pyStrip ⟨part⟩ = "" then none else parseIntStr ⟨part⟩))

/-- `_load_access` when no store file exists: an empty document seeded from
the two environment variables. -/
def loadWhenAbsent (superEnv adminEnv : Option String) : AccessDoc :=
  { super := { ids := parseIds superEnv, usernames := [] },
    admins := { ids := parseIds adminEnv, usernames := [] } }

/-! ## The access gate over arbitrary Python documents (`is_super`,
`is_admin`) -/

/-- Can the value be a member of a Python `set`? -/
def pyHashable : PyVal → Bool
  | .jarr _ => false
  | .jobj _ => false
  | _ => true

/-- Python `uid in set(ys)` for an int `uid`: iterate, hash, then compare
with Python `==` (`True == 1`, `False == 0`). -/
def pyIntMem (uid : Int) (ys : PyVal) : Except PyErr Bool := do
  let items ← pyIter ys
  if items.all pyHashable then
    .ok (items.any (fun v =>
      match v with
      | .jnum n => n = uid
      | .jbool b => (if b then (1 : Int) else 0) = uid
      | _ => false))
  else .error (.typeErr "unhashable")

/-- Python `un in set(ys)` for a string `un`. -/
def pyStrMem (un : String) (ys : PyVal) : Except PyErr Bool := do
  let items ← pyIter ys
  if items.all pyHashable then
    .ok (items.any (fun v =>
      match v with
      | .jstr t => t = un
      | _ => false))
  else .error (.typeErr "unhashable")

/-- `_in_block` over an arbitrary Python value: `block.get` raises unless
the block is a dict; the username set is only built when the normalised
username is truthy. -/
def inBlockE (uid : Int) (uname : Option String) (block : PyVal) : Except PyErr Bool :=
  match block with
  | .jobj bl => do
    let hit ← pyIntMem uid ((dget bl "ids").getD (.jarr []))
    if hit then .ok true
    else
      match uname with
      | some un =>
        if un = "" then .ok false
        else pyStrMem un ((dget bl "usernames").getD (.jarr []))
      | none => .ok false
  | _ => .error (.attrErr "get")

/-- `is_super` from bot.py over an arbitrary Python access document. -/
def isSuperE (c : Caller) (access : PyVal) : Except PyErr Bool :=
  match access with
  | .jobj al => inBlockE c.uid (userUnameNorm c) ((dget al "super").getD (.jobj []))
  | _ => .error (.attrErr "get")

/-- `is_admin` from bot.py:
`is_super(m, access) or _in_block(m, access.get("admins", {}))`. -/
def isAdminE (c : Caller) (access : PyVal) : Except PyErr Bool :=
  match isSuperE c access with
  | .error e => .error e
  | .ok true => .ok true
  | .ok false =>
    match access with
    | .jobj al => inBlockE c.uid (userUnameNorm c) ((dget al "admins").getD (.jobj []))
    | _ => .error (.attrErr "get")

/-! ## The transcoder invocations -/

/-- The exact argument vector built by `ffmpeg_convert` in bot.py and
passed to `asyncio.create_subprocess_exec` (each element one `argv` entry,
no shell). -/
def ffmpegConvertArgs (src dst : String) : List String :=
  ["ffmpeg", "-y",
   "-i", src,
   "-vf",
   "scale=480:480:force_original_aspect_ratio=decrease,pad=480:480:(ow-iw)/2:(oh-ih)/2,setsar=1",
   "-t", "59",
   "-r", "30",
   "-c:v", "libx264", "-preset", "veryfast",
   "-profile:v", "main", "-level", "3.1",
   "-pix_fmt", "yuv420p",
   "-c:a", "aac", "-b:a", "96k", "-ar", "48000", "-ac", "1",
   "-movflags", "+faststart",
   dst]

/-- The exact argument vector built by `convert_to_video_note` in Main.py
and passed to `subprocess.run` (no shell): crop to a centred square and
scale — no `-t`, no `-r`. -/
def convertToVideoNoteArgs (src dst : String) : List String :=
  ["ffmpeg", "-y",
   "-i", src,
   "-vf", "crop=\x27min(iw,ih)\x27:\x27min(iw,ih)\x27,scale=480:480,setsar=1",
   "-c:v", "libx264", "-preset", "veryfast",
   "-profile:v", "main", "-level", "3.1",
   "-pix_fmt", "yuv420p",
   "-c:a", "aac", "-b:a", "96k", "-ar", "48000", "-ac", "1",
   dst]

/-- The value following the first occurrence of a flag in an argument
vector. -/
def argValue (args : List String) (flag : String) : Option String :=
  match args with
  | [] => none
  | [_] => none
  | a :: b :: t => if a = flag then some b else argValue (b :: t) flag

/-- Documented contract of the external transcoder for the filter
`scale=480:480:force_original_aspect_ratio=decrease`: the frame is scaled
down to fit inside the 480×480 box, keeping the aspect ratio by decreasing
one dimension (integer division models the transcoder's rounding). -/
def scaleFitBox (iw ih : Nat) : Nat × Nat :=
  if ih ≤ iw then (480, 480 * ih / iw) else (480 * iw / ih, 480)

/-- Documented contract of `pad=480:480:(ow-iw)/2:(oh-ih)/2`: a 480×480
canvas with the scaled frame placed at centred offsets. -/
def padBox (wh : Nat × Nat) : (Nat × Nat) × Nat × Nat :=
  ((480, 480), ((480 - wh.1) / 2, (480 - wh.2) / 2))

/-- Documented contract of `-t 59`: output duration capped at 59 seconds. -/
def capDuration (d : Nat) : Nat := min d 59

/-- Documented contract of `-r 30`: fixed output frame rate. -/
def outFrameRate : Nat := 30

/-! ## Temporary-directory lifecycle (`handle_video`) -/

/-- A file-system path as a list of components. -/
abbrev FsPath := List String

/-- The set of existing paths. -/
abbrev Fs := List FsPath

/-- Does the path lie inside directory `d` (or equal it)? -/
def underDir (d : String) (p : FsPath) : Bool := p.head? = some d

/-- `TemporaryDirectory.__exit__`: remove the directory and everything
inside it, whether the scope exits normally or by exception. -/
def removeTree (d : String) (fs : Fs) : Fs := fs.filter (fun p => !underDir d p)

/-- Outcome of one `handle_video` request, as visible to the caller. -/
inductive ReqResult where
  | denied
  | sentNote
  | errorReply
  | raised
deriving DecidableEq

/-- `handle_video` from bot.py over an explicit file system.  The booleans
are oracles for the access check, the download, the transcode and the
delivery (`false` = that step raises); the three steps sit inside the
handler's `try/except`, and the whole body inside
`with TemporaryDirectory()`.  `suffix` comes from the original file name
(default `".mp4"`). -/
def handleVideoBot (allowed dOk cOk sOk : Bool) (tmp suffix : String) (fs : Fs) :
    Fs × ReqResult :=
  if !allowed then (fs, .denied)
  else
    let fs1 : Fs := [tmp] :: fs
    let step : Fs × ReqResult :=
      if !dOk then (fs1, .errorReply)
      else
        let fs2 : Fs := [tmp, "src" ++ suffix] :: fs1
        if !cOk then (fs2, .errorReply)
        else
          let fs3 : Fs := [tmp, "out.mp4"] :: fs2
          if !sOk then (fs3, .errorReply) else (fs3, .sentNote)
    (removeTree tmp step.1, step.2)

/-- `handle_video` from Main.py: the download and the delivery sit outside
the `try`, so their exceptions propagate out of the handler — but still
through the `with TemporaryDirectory()` scope, which removes the
directory. -/
def handleVideoMain (dOk cOk sOk : Bool) (tmp suffix : String) (fs : Fs) :
    Fs × ReqResult :=
  let fs1 : Fs := [tmp] :: fs
  let step : Fs × ReqResult :=
    if !dOk then (fs1, .raised)
    else
      let fs2 : Fs := [tmp, "source" ++ suffix] :: fs1
      if !cOk then (fs2, .errorReply)
      else
        let fs3 : Fs := [tmp, "converted.mp4"] :: fs2
        if !sOk then (fs3, .raised) else (fs3, .sentNote)
  (removeTree tmp step.1, step.2)

/-! ## Further helper lemmas -/

theorem self_mem_insertSorted [DecidableEq α] (lt : α → α → Bool) (x : α) (l : List α) :
    x ∈ insertSorted lt x l := by
  induction l with
  | nil => simp [insertSorted]
  | cons y ys ih =>
    simp only [insertSorted]
    split
    · simp
    · split
      · next heq => simp [heq]
      · simp [ih]

theorem mem_insertSorted_of_mem [DecidableEq α] (lt : α → α → Bool) (x a : α) (l : List α)
    (h : a ∈ l) : a ∈ insertSorted lt x l := by
  induction l with
  | nil => simp at h
  | cons y ys ih =>
    simp only [insertSorted]
    split
    · simp [h]
    · split
      · exact h
      · rcases List.mem_cons.mp h with h1 | h1
        · simp [h1]
        · simp [ih h1]

theorem mem_sortDedup_of_mem [DecidableEq α] (lt : α → α → Bool) (a : α) (l : List α)
    (h : a ∈ l) : a ∈ sortDedup lt l := by
  induction l with
  | nil => simp at h
  | cons x xs ih =>
    simp only [sortDedup]
    rcases List.mem_cons.mp h with h1 | h1
    · rw [h1]; exact self_mem_insertSorted lt x _
    · exact mem_insertSorted_of_mem lt x a _ (ih h1)

/-- `_parse_target` returns one of three shapes: nothing, a handle only,
or an id only. -/
theorem parseTarget_cases (a : String) :
    parseTarget a = (none, none) ∨ (∃ u, parseTarget a = (none, some u)) ∨
      (∃ n, parseTarget a = (some n, none)) := by
  unfold parseTarget parseTargetStripped
  split
  · left; rfl
  · split
    · right; left; exact ⟨_, rfl⟩
    · split
      · right; right; exact ⟨_, rfl⟩
      · right; left; exact ⟨_, rfl⟩

/-- `_parse_target` yields an id or a handle, never both. -/
theorem parseTarget_id_no_uname (a : String) (uid : Int)
    (h : (parseTarget a).1 = some uid) : (parseTarget a).2 = none := by
  rcases parseTarget_cases a with h1 | ⟨u, h1⟩ | ⟨n, h1⟩
  · rw [h1] at h; simp at h
  · rw [h1] at h; simp at h
  · rw [h1]

/-- A caller inside a block forces the block to be non-empty. -/
theorem inBlockS_nonempty (c : Caller) (b : Block) (h : inBlockS c b = true) :
    b.ids.length + b.usernames.length ≠ 0 := by
  unfold inBlockS at h
  rw [Bool.or_eq_true] at h
  rcases h with h | h
  · have hm : c.uid ∈ b.ids := of_decide_eq_true h
    have : b.ids ≠ [] := List.ne_nil_of_mem hm
    have := List.length_pos.mpr this
    omega
  · split at h
    · next un hun =>
      rw [Bool.and_eq_true] at h
      have hm : un ∈ b.usernames := of_decide_eq_true h.2
      have : b.usernames ≠ [] := List.ne_nil_of_mem hm
      have := List.length_pos.mpr this
      omega
    · simp at h

/-- Username lists of a tier of a load/normalise result (used to exhibit
countermodels without decidable equality on `PyVal`). -/
def tierUnames (t : String) (r : Except PyErr PyVal) : Option (List String) :=
  match r with
  | .ok (.jobj l) =>
    match dget l t with
    | some (.jobj bl) =>
      match dget bl "usernames" with
      | some (.jarr us) => some (us.map pyStr)
      | _ => none
    | _ => none
  | _ => none

/-- A stored document whose super tier holds the handle `"@"` (a bare
sigil): its normalisation keeps the empty handle, a second pass drops it. -/
def atSigilDoc : PyVal :=
  .jobj [("super", .jobj [("ids", .jarr []), ("usernames", .jarr [.jstr "@"])]),
         ("admins", .jobj [("ids", .jarr []), ("usernames", .jarr [])])]

/-! ## The claims -/

/-- C1: for every stored access document and every revoke-super argument,
if removing the parsed target from the loaded (normalised) super tier
would leave it with zero ids and zero handles, `cmd_revoke_super` rejects
with the explicit last-super-admin message and performs no write, so the
stored document before and after the command is equal. -/
theorem c1_revoke_super_guard (store : AccessDoc) (a : String)
    (hids : (superAfterRemoval (normAccessS store) a).ids = [])
    (huns : (superAfterRemoval (normAccessS store) a).usernames = []) :
    storeAfter store (cmdRevokeSuper (normAccessS store) (some a)) = store ∧
    (cmdRevokeSuper (normAccessS store) (some a)).2
      = "⛔ Нельзя удалить последнего супер-админа." := by
  have hcond : (superAfterRemoval (normAccessS store) a).ids.length
      + (superAfterRemoval (normAccessS store) a).usernames.length = 0 := by
    rw [hids, huns]
    rfl
  unfold cmdRevokeSuper storeAfter
  simp [hcond]

/-- C1 witness: revoking the only super admin (id 1) of the store
`{super: {ids: [1]}, admins: {}}` is rejected and the store is unchanged. -/
theorem c1_revoke_super_guard_witness :
    storeAfter ⟨⟨[1], []⟩, ⟨[], []⟩⟩
        (cmdRevokeSuper (normAccessS ⟨⟨[1], []⟩, ⟨[], []⟩⟩) (some "1"))
      = ⟨⟨[1], []⟩, ⟨[], []⟩⟩ ∧
    (cmdRevokeSuper (normAccessS ⟨⟨[1], []⟩, ⟨[], []⟩⟩) (some "1")).2
      = "⛔ Нельзя удалить последнего супер-админа." :=
  c1_revoke_super_guard ⟨⟨[1], []⟩, ⟨[], []⟩⟩ "1" (by decide) (by decide)

/-- C2 counterexample: the transcoder invocation of `convert_to_video_note`
in Main.py carries no `-t` (duration-cap) flag and no `-r` (frame-rate)
flag, and its filter crops to a centred square instead of scaling down and
padding — so not every transcoder invocation matches the claimed profile. -/
theorem c2_counterexample :
    argValue (convertToVideoNoteArgs "source.mp4" "converted.mp4") "-t" = none ∧
    argValue (convertToVideoNoteArgs "source.mp4" "converted.mp4") "-r" = none ∧
    argValue (convertToVideoNoteArgs "source.mp4" "converted.mp4") "-vf"
      = some "crop=\x27min(iw,ih)\x27:\x27min(iw,ih)\x27,scale=480:480,setsar=1" := by
  decide

/-- C2 amended: the invocation of `ffmpeg_convert` in bot.py uses a fixed
argument vector (source and destination each one `argv` element, no shell)
whose filter scales down to fit within 480×480 preserving aspect ratio and
pads to exactly 480×480 with centred content, with `-t 59` capping the
duration and `-r 30` fixing the frame rate; the second transcoder variant
(`convert_to_video_note` in Main.py) instead crops to a centred square
with no duration cap and no frame-rate flag. -/
theorem c2_amended (src dst : String) (iw ih d : Nat) (hiw : 0 < iw) (hih : 0 < ih) :
    ((ffmpegConvertArgs src dst)[3]? = some src ∧
     (ffmpegConvertArgs src dst)[4]? = some "-vf" ∧
     (ffmpegConvertArgs src dst)[5]? = some
       "scale=480:480:force_original_aspect_ratio=decrease,pad=480:480:(ow-iw)/2:(oh-ih)/2,setsar=1" ∧
     (ffmpegConvertArgs src dst)[6]? = some "-t" ∧
     (ffmpegConvertArgs src dst)[7]? = some "59" ∧
     (ffmpegConvertArgs src dst)[8]? = some "-r" ∧
     (ffmpegConvertArgs src dst)[9]? = some "30") ∧
    (scaleFitBox iw ih).1 ≤ 480 ∧ (scaleFitBox iw ih).2 ≤ 480 ∧
    ((scaleFitBox iw ih).1 = 480 ∨ (scaleFitBox iw ih).2 = 480) ∧
    (padBox (scaleFitBox iw ih)).1 = (480, 480) ∧
    (480 - (scaleFitBox iw ih).1) - 2 * (padBox (scaleFitBox iw ih)).2.1 ≤ 1 ∧
    2 * (padBox (scaleFitBox iw ih)).2.1 ≤ 480 - (scaleFitBox iw ih).1 ∧
    (480 - (scaleFitBox iw ih).2) - 2 * (padBox (scaleFitBox iw ih)).2.2 ≤ 1 ∧
    2 * (padBox (scaleFitBox iw ih)).2.2 ≤ 480 - (scaleFitBox iw ih).2 ∧
    capDuration d ≤ 59 ∧ capDuration d = min d 59 ∧ outFrameRate = 30 := by
  have hb : ∀ x y : Nat, 0 < y → x ≤ y → 480 * x / y ≤ 480 := by
    intro x y hy hxy
    calc 480 * x / y ≤ 480 * y / y := Nat.div_le_div_right (Nat.mul_le_mul_left 480 hxy)
      _ = 480 := Nat.mul_div_cancel 480 hy
  have hfit : (scaleFitBox iw ih).1 ≤ 480 ∧ (scaleFitBox iw ih).2 ≤ 480 ∧
      ((scaleFitBox iw ih).1 = 480 ∨ (scaleFitBox iw ih).2 = 480) := by
    unfold scaleFitBox
    by_cases hcase : ih ≤ iw
    · rw [if_pos hcase]
      exact ⟨le_refl 480, hb ih iw hiw hcase, Or.inl rfl⟩
    · rw [if_neg hcase]
      exact ⟨hb iw ih hih (by omega), le_refl 480, Or.inr rfl⟩
  have hpx : (padBox (scaleFitBox iw ih)).2.1 = (480 - (scaleFitBox iw ih).1) / 2 := rfl
  have hpy : (padBox (scaleFitBox iw ih)).2.2 = (480 - (scaleFitBox iw ih).2) / 2 := rfl
  refine ⟨⟨rfl, rfl, rfl, rfl, rfl, rfl, rfl⟩, hfit.1, hfit.2.1, hfit.2.2, rfl,
    ?_, ?_, ?_, ?_, Nat.min_le_right d 59, rfl, rfl⟩
  · rw [hpx]; omega
  · rw [hpx]; omega
  · rw [hpy]; omega
  · rw [hpy]; omega

/-- C2 amended witness at a 16:9 source (1920×1080, 100 s): scaled to
480×270, letterboxed at vertical offset 105 on a 480×480 canvas, duration
capped to 59 s, 30 fps. -/
theorem c2_amended_witness :
    (0 : Nat) < 1920 ∧ (0 : Nat) < 1080 ∧
    scaleFitBox 1920 1080 = (480, 270) ∧
    padBox (scaleFitBox 1920 1080) = ((480, 480), (0, 105)) ∧
    capDuration 100 = 59 ∧
    (ffmpegConvertArgs "in.mp4" "out.mp4")[6]? = some "-t" := by
  refine ⟨by decide, by decide, by decide, by decide, by decide,
    (c2_amended "in.mp4" "out.mp4" 1920 1080 100 (by decide) (by decide)).1.2.2.2.1⟩

/-- C3: in both `handle_video` handlers the whole request body runs inside
`with TemporaryDirectory()`, so on every exit path — denial, success,
download failure, conversion failure, delivery failure — the temporary
directory and every file inside it are removed and the rest of the file
system is untouched. -/
theorem c3_tmpdir_cleanup (allowed dOk cOk sOk : Bool) (tmp suffix : String) (fs : Fs)
    (h : ∀ p ∈ fs, underDir tmp p = false) :
    (handleVideoBot allowed dOk cOk sOk tmp suffix fs).1 = fs ∧
    (handleVideoMain dOk cOk sOk tmp suffix fs).1 = fs := by
  have hfs : fs.filter (fun p => !underDir tmp p) = fs :=
    List.filter_eq_self.mpr (fun p hp => by rw [h p hp]; rfl)
  have hT : underDir tmp [tmp] = true := by simp [underDir]
  have hT2 : ∀ f : String, underDir tmp [tmp, f] = true := by
    intro f; simp [underDir]
  cases allowed <;> cases dOk <;> cases cOk <;> cases sOk <;>
    simp [handleVideoBot, handleVideoMain, removeTree, List.filter_cons, hT, hT2, hfs]

/-- C3 witness: a run that fails at the conversion step leaves the outside
file system exactly as it was. -/
theorem c3_tmpdir_cleanup_witness :
    (handleVideoBot true true false true "tmp123" ".mp4" [["other"]]).1 = [["other"]] ∧
    (handleVideoMain true false true "tmp123" ".mp4" [["other"]]).1 = [["other"]] :=
  c3_tmpdir_cleanup true true false true "tmp123" ".mp4" [["other"]] (by decide)

/-- C4 (code bug): loading store-file content `{"super": 5}` — valid JSON
but not an access document — raises `AttributeError` inside
`_normalize_access` (`b.get` on an int) instead of returning a fresh empty
document. -/
theorem c4_load_raises_on_int_super :
    loadAccessParsed (some (.jobj [("super", .jnum 5)])) = .error (.attrErr "get") := rfl

/-- C5 counterexample: on the spec's scenario document
`{super: {ids: [1]}, admins: {}}`, revoking the absent admin handle
"alice" leaves the stored document unchanged but replies with the generic
success ("revoked") message — the same reply as when "alice" is present —
not with a "not found" message. -/
theorem c5_counterexample :
    cmdRevokeAdmin ⟨⟨[1], []⟩, ⟨[], []⟩⟩ (some "alice")
      = (some ⟨⟨[1], []⟩, ⟨[], []⟩⟩, "✅ Отозван доступ АДМИНА: @alice") ∧
    (cmdRevokeAdmin ⟨⟨[1], []⟩, ⟨[], []⟩⟩ (some "alice")).2
      = (cmdRevokeAdmin ⟨⟨[1], []⟩, ⟨[], ["alice"]⟩⟩ (some "alice")).2 := by
  decide

/-- C5 amended: revoking a target absent from the admin tier of an
already-normalised stored document neither changes the stored document nor
errors, and replies with the same generic success message used for a
present target (there is no "not found" reply in the code). -/
theorem c5_amended (access : AccessDoc) (a : String) (t1 : Option Int) (t2 : Option String)
    (hpt : parseTarget a = (t1, t2))
    (hnorm : normAccessS access = access)
    (habsId : ∀ i, t1 = some i → i ∉ access.admins.ids)
    (habsU : ∀ s, t2 = some s → s ≠ "" → s ∉ access.admins.usernames) :
    cmdRevokeAdmin access (some a)
      = (some access, "✅ Отозван доступ АДМИНА: " ++ whoStr t1 t2) := by
  have hids : sortDedup intLt access.admins.ids = access.admins.ids := by
    have h1 := congrArg (fun x => x.admins.ids) hnorm
    simp only [normAccessS, normBlockS] at h1
    exact h1
  have hus : sortDedup strLt access.admins.usernames = access.admins.usernames := by
    have h1 := congrArg (fun x => x.admins.usernames) hnorm
    simp only [normAccessS, normBlockS] at h1
    conv_lhs => rw [← h1]
    rw [sortDedup_idem strLt strLt_total]
    exact h1
  simp only [cmdRevokeAdmin]
  rw [hpt]
  cases t1 with
  | some uid =>
    have ht2 : t2 = none := by
      have hx := parseTarget_id_no_uname a uid (by rw [hpt])
      rw [hpt] at hx
      exact hx
    subst ht2
    have hfilter : access.admins.ids.filter (fun i => !decide (i = uid)) = access.admins.ids :=
      List.filter_eq_self.mpr (fun i hi => by
        have hne : i ≠ uid := fun heq => habsId uid rfl (heq ▸ hi)
        simp [hne])
    simp [unameTruthy, hfilter, hids, hnorm]
  | none =>
    cases t2 with
    | none => simp [unameTruthy, hnorm]
    | some s =>
      by_cases hs : s = ""
      · subst hs
        simp [unameTruthy, hnorm]
      · have hfilterU : access.admins.usernames.filter (fun u => !decide (u = s))
            = access.admins.usernames :=
          List.filter_eq_self.mpr (fun u hu => by
            have hne : u ≠ s := fun heq => habsU s rfl hs (heq ▸ hu)
            simp [hne])
        simp [unameTruthy, hs, hfilterU, hus, hnorm]

/-- C5 amended witness: revoking the absent handle "alice" on
`{super: {ids: [1]}, admins: {}}` writes the document back unchanged and
reports the revoked-success reply. -/
theorem c5_amended_witness :
    cmdRevokeAdmin ⟨⟨[1], []⟩, ⟨[], []⟩⟩ (some "alice")
      = (some ⟨⟨[1], []⟩, ⟨[], []⟩⟩, "✅ Отозван доступ АДМИНА: " ++ whoStr none (some "alice")) :=
  c5_amended ⟨⟨[1], []⟩, ⟨[], []⟩⟩ "alice" none (some "alice") (by decide) (by decide)
    (fun i h => Option.noConfusion h)
    (fun s h hne => by cases h; simp)

/-- C6 counterexample: for the stored document whose super tier holds the
handle "@", save-then-load yields a super tier with no usernames, while
`normalize(input)` keeps the empty-string username — save-then-load is not
`normalize(input)` in general. -/
theorem c6_counterexample :
    tierUnames "super" (normalizeExc atSigilDoc) = some [""] ∧
    tierUnames "super" (saveThenLoad atSigilDoc) = some [] ∧
    saveThenLoad atSigilDoc ≠ normalizeExc atSigilDoc := by
  refine ⟨rfl, rfl, fun h => ?_⟩
  have h2 := congrArg (tierUnames "super") h
  rw [show tierUnames "super" (saveThenLoad atSigilDoc) = some [] from rfl] at h2
  rw [show tierUnames "super" (normalizeExc atSigilDoc) = some [""] from rfl] at h2
  simp at h2

/-- C6 amended: saving then loading returns `normalize(input)` for every
input document whose normalisation succeeds and yields no empty-string
handle (i.e. no handle entry consisting solely of `@` sigils); in general
save-then-load is `normalize(normalize(input))`. -/
theorem c6_amended (d nd : PyVal) (h : normalizeExc d = .ok nd)
    (hne : noEmptyUnames nd = true) : saveThenLoad d = normalizeExc d := by
  unfold saveThenLoad saveAccess loadStored
  rw [h]
  exact normalizeExc_fix d nd h hne

/-- A well-behaved stored document used as round-trip witness input. -/
def roundTripDoc : PyVal :=
  .jobj [("super", .jobj [("ids", .jarr [.jnum 2, .jnum 1]),
                          ("usernames", .jarr [.jstr "@Bob"])]),
         ("admins", .jobj [("ids", .jarr []), ("usernames", .jarr [])])]

/-- C6 amended witness: a concrete save-then-load round trip. -/
theorem c6_amended_witness : saveThenLoad roundTripDoc = normalizeExc roundTripDoc :=
  c6_amended roundTripDoc
    (.jobj [("super", .jobj [("ids", .jarr [.jnum 1, .jnum 2]),
                             ("usernames", .jarr [.jstr "bob"])]),
            ("admins", .jobj [("ids", .jarr []), ("usernames", .jarr [])])])
    rfl rfl

/-- C7 counterexample: normalising the document whose super tier holds the
handle "@" keeps the empty-string handle, and a second normalisation drops
it — `normalize` is not idempotent on this document. -/
theorem c7_counterexample :
    tierUnames "super" (normalizeExc atSigilDoc) = some [""] ∧
    tierUnames "super" ((normalizeExc atSigilDoc).bind normalizeExc) = some [] ∧
    (normalizeExc atSigilDoc).bind normalizeExc ≠ normalizeExc atSigilDoc := by
  refine ⟨rfl, rfl, fun h => ?_⟩
  have h2 := congrArg (tierUnames "super") h
  rw [show tierUnames "super" ((normalizeExc atSigilDoc).bind normalizeExc) = some []
      from rfl] at h2
  rw [show tierUnames "super" (normalizeExc atSigilDoc) = some [""] from rfl] at h2
  simp at h2

/-- C7 amended: `normalize` is idempotent on every input document (well- or
mal-formed) whose normalisation succeeds and yields no empty-string handle
— i.e. unless some truthy username entry consists solely of `@` sigils. -/
theorem c7_amended (d nd : PyVal) (h : normalizeExc d = .ok nd)
    (hne : noEmptyUnames nd = true) :
    (normalizeExc d).bind normalizeExc = normalizeExc d := by
  rw [h]
  exact normalizeExc_fix d nd h hne

/-- A messy but sigil-free document used as idempotence witness input. -/
def idemWitnessDoc : PyVal :=
  .jobj [("admins", .jobj [("ids", .jarr [.jstr "7", .jnum 7]),
                           ("usernames", .jarr [.jstr "@Ann", .jbool true])])]

/-- C7 amended witness: a concrete double normalisation. -/
theorem c7_amended_witness :
    (normalizeExc idemWitnessDoc).bind normalizeExc = normalizeExc idemWitnessDoc :=
  c7_amended idemWitnessDoc
    (.jobj [("admins", .jobj [("ids", .jarr [.jnum 7]),
                              ("usernames", .jarr [.jstr "ann", .jstr "true"])]),
            ("super", .jobj [("ids", .jarr []), ("usernames", .jarr [])])])
    rfl rfl

/-- C8: for every access document (any Python value) and every identity,
if `is_super` returns `True` then `is_admin` returns `True` (super-tier
membership implies admin rights; `is_admin` short-circuits on
`is_super`). -/
theorem c8_super_implies_admin (c : Caller) (access : PyVal)
    (h : isSuperE c access = .ok true) : isAdminE c access = .ok true := by
  simp [isAdminE, h]

/-- C8 witness: caller id 1 against super tier `{ids: [1]}`. -/
theorem c8_super_implies_admin_witness :
    isAdminE ⟨1, none⟩
        (.jobj [("super", .jobj [("ids", .jarr [.jnum 1]), ("usernames", .jarr [])])])
      = .ok true :=
  c8_super_implies_admin ⟨1, none⟩
    (.jobj [("super", .jobj [("ids", .jarr [.jnum 1]), ("usernames", .jarr [])])]) rfl

/-- C9 counterexample: from the reachable bootstrap store
`{super: {ids: [1]}, admins: {}}` (environment `BOT_SUPER_ADMINS=1`), the
super admin 1 granting admin to id 1 stores the identity in both tiers —
super privilege is stored redundantly in the admin set, so the claimed
invariant is not preserved by mutations. -/
theorem c9_counterexample :
    loadWhenAbsent (some "1") none = (⟨⟨[1], []⟩, ⟨[], []⟩⟩ : AccessDoc) ∧
    cmdGrantAdmin ⟨⟨[1], []⟩, ⟨[], []⟩⟩ (some "1")
      = (some ⟨⟨[1], []⟩, ⟨[1], []⟩⟩, "✅ Выдан доступ АДМИНА: 1") ∧
    (1 : Int) ∈ (⟨⟨[1], []⟩, ⟨[1], []⟩⟩ : AccessDoc).super.ids ∧
    (1 : Int) ∈ (⟨⟨[1], []⟩, ⟨[1], []⟩⟩ : AccessDoc).admins.ids := by
  decide

/-- C9 amended: grant-admin stores the target id in the admin tier
regardless of super membership: for every document and every super-member
id targeted, the written document keeps the id in the super tier and also
stores it in the admin tier (the tiers are not kept disjoint; membership
queries are unaffected because `is_admin` checks `is_super` first). -/
theorem c9_amended (access : AccessDoc) (a : String) (uid : Int)
    (hpt : (parseTarget a).1 = some uid)
    (hsup : uid ∈ access.super.ids) :
    ∃ nd, (cmdGrantAdmin access (some a)).1 = some nd ∧
      uid ∈ nd.super.ids ∧ uid ∈ nd.admins.ids := by
  have ht2 : (parseTarget a).2 = none := parseTarget_id_no_uname a uid hpt
  have hpair : parseTarget a = (some uid, none) := Prod.ext_iff.mpr ⟨hpt, ht2⟩
  simp only [cmdGrantAdmin]
  rw [hpair]
  have hcond : ¬((some uid, (none : Option String)).1 = none ∧
      unameTruthy (some uid, (none : Option String)).2 = false) := by
    simp
  rw [if_neg hcond]
  refine ⟨_, rfl, ?_, ?_⟩
  · show uid ∈ sortDedup intLt access.super.ids
    exact mem_sortDedup_of_mem intLt uid _ hsup
  · show uid ∈ sortDedup intLt (sortDedup intLt (access.admins.ids ++ [uid]))
    exact mem_sortDedup_of_mem intLt uid _
      (mem_sortDedup_of_mem intLt uid _ (by simp))

/-- C9 amended witness: granting admin to the super member 1. -/
theorem c9_amended_witness :
    ∃ nd, (cmdGrantAdmin ⟨⟨[1], []⟩, ⟨[], []⟩⟩ (some "1")).1 = some nd ∧
      (1 : Int) ∈ nd.super.ids ∧ (1 : Int) ∈ nd.admins.ids :=
  c9_amended ⟨⟨[1], []⟩, ⟨[], []⟩⟩ "1" 1 (by decide) (by decide)

/-- C10: for a super caller, each of revoke_admin / grant_super /
revoke_super given an argument that normalises to neither an id nor a
non-empty handle (e.g. the bare sigil "@") is not rejected: the
already-normalised document is persisted with its content unchanged, and
the reply is the success message naming the target as "None". -/
theorem c10_none_target (access : AccessDoc) (c : Caller) (a : String)
    (hsup : isSuperS c access = true)
    (hnorm : normAccessS access = access)
    (hpt : parseTarget a = (none, some "")) :
    cmdRevokeAdmin access (some a) = (some access, "✅ Отозван доступ АДМИНА: None") ∧
    cmdGrantSuper access (some a) = (some access, "✅ Выдан доступ СУПЕР-АДМИНА: None") ∧
    cmdRevokeSuper access (some a) = (some access, "✅ Отозван доступ СУПЕР-АДМИНА: None") := by
  have hcount : access.super.ids.length + access.super.usernames.length ≠ 0 :=
    inBlockS_nonempty c access.super hsup
  have hrem : superAfterRemoval access a = access.super := by
    unfold superAfterRemoval
    rw [hpt]
    simp [unameTruthy]
  refine ⟨?_, ?_, ?_⟩
  · simp [cmdRevokeAdmin, hpt, unameTruthy, hnorm, whoStr, optIntStr]
  · simp [cmdGrantSuper, hpt, unameTruthy, hnorm, whoStr, optIntStr]
  · simp [cmdRevokeSuper, hpt, hrem, hcount, hnorm, whoStr, optIntStr]

/-- C10 witness: super admin 1 issuing the three commands with the bare
sigil "@" as argument. -/
theorem c10_none_target_witness :
    cmdRevokeAdmin ⟨⟨[1], []⟩, ⟨[], []⟩⟩ (some "@")
      = (some ⟨⟨[1], []⟩, ⟨[], []⟩⟩, "✅ Отозван доступ АДМИНА: None") ∧
    cmdGrantSuper ⟨⟨[1], []⟩, ⟨[], []⟩⟩ (some "@")
      = (some ⟨⟨[1], []⟩, ⟨[], []⟩⟩, "✅ Выдан доступ СУПЕР-АДМИНА: None") ∧
    cmdRevokeSuper ⟨⟨[1], []⟩, ⟨[], []⟩⟩ (some "@")
      = (some ⟨⟨[1], []⟩, ⟨[], []⟩⟩, "✅ Отозван доступ СУПЕР-АДМИНА: None") :=
  c10_none_target ⟨⟨[1], []⟩, ⟨[], []⟩⟩ ⟨1, none⟩ "@" (by decide) (by decide) (by decide)

end BotRing
